import Mathlib

/-
  Verification development for the LLM-Docs repository
  (llm_docify/app/parser.py and llm_docify/app/crawler.py).

  Strings are modelled as lists of characters (`Str`).  Library calls that
  are external to the repository (trafilatura, readability, BeautifulSoup
  HTML parsing, html2text, the network, urljoin) are modelled as oracle
  parameters; every piece of logic written in the repository itself is
  translated directly from the source.
-/

/-- Character-list strings, the carrier for every text value in the model. -/
abbrev Str := List Char

/-- Convert a Lean string literal to the `Str` carrier. -/
def lit (s : String) : Str := s.toList

/-- Boolean test that `s` begins with `p` (Python `str.startswith`). -/
def strStarts : Str → Str → Bool
  | _, [] => true
  | [], _ :: _ => false
  | c :: s, d :: t => c = d && strStarts s t

/-- Boolean test that `s` ends with `p` (Python `str.endswith`). -/
def strEnds (s p : Str) : Bool := strStarts s.reverse p.reverse

/-- Whitespace characters removed by Python `str.strip`. -/
def isWsChar (c : Char) : Bool :=
  c = ' ' || c = '\t' || c = '\n' || c = '\r' || c = '\x0b' || c = '\x0c'

/-- Python `str.strip()`: drop leading and trailing whitespace. -/
def pyStrip (s : Str) : Str :=
  ((s.dropWhile isWsChar).reverse.dropWhile isWsChar).reverse

/-- Python `str.split()` with no argument: whitespace-separated words. -/
def pyWords (s : Str) : List Str :=
  (s.foldr
    (fun c acc =>
      if isWsChar c then [] :: acc
      else
        match acc with
        | [] => [[c]]
        | w :: ws => (c :: w) :: ws)
    []).filter (· ≠ [])

/-- Python `str.lower()` restricted to the ASCII range used by the code. -/
def lowerStr (s : Str) : Str := s.map Char.toLower

/-- Python `netloc.replace("www.", "")`: remove every non-overlapping
occurrence of the substring `www.`, scanning left to right.  Note this is
not a strip of a leading `www.` only. -/
def replaceWww : Str → Str
  | 'w' :: 'w' :: 'w' :: '.' :: rest => replaceWww rest
  | c :: rest => c :: replaceWww rest
  | [] => []

/-- Split a string at every newline (Python `markdown.split("\n")`). -/
def splitNl : Str → List Str
  | [] => [[]]
  | '\n' :: r => [] :: splitNl r
  | c :: r =>
    match splitNl r with
    | [] => [[c]]
    | l :: ls => (c :: l) :: ls

/-- Join lines with newlines (Python `"\n".join(lines)`). -/
def joinNl : List Str → Str
  | [] => []
  | [l] => l
  | l :: ls => l ++ '\n' :: joinNl ls

/-- Decimal digit character. -/
def digitChar (n : Nat) : Char := Char.ofNat (48 + n)

/-- Fuelled decimal rendering helper. -/
def natStrAux : Nat → Nat → Str → Str
  | 0, _, acc => acc
  | fuel + 1, n, acc =>
    if n < 10 then digitChar n :: acc
    else natStrAux fuel (n / 10) (digitChar (n % 10) :: acc)

/-- Decimal rendering of a natural number, as Python `str` on a
non-negative int. -/
def natStr (n : Nat) : Str := natStrAux (n + 1) n []

/-- Split at the first occurrence of `sep`: `none` when `sep` is absent,
otherwise the pieces strictly before and after it. -/
def breakAt (sep : Char) : Str → Option (Str × Str)
  | [] => none
  | c :: r =>
    if c = sep then some ([], r)
    else
      match breakAt sep r with
      | none => none
      | some p => some (c :: p.1, p.2)

/-- Python `s.split(sep, 1)` behaviour used by urlsplit: if `sep` is
absent the whole string is the first component. -/
def splitOnFirst (sep : Char) (s : Str) : Str × Str :=
  match breakAt sep s with
  | none => (s, [])
  | some p => p

/-- The netloc splitter of `urllib.parse.urlsplit`: the netloc runs up to
the first of `/`, `?` or `#`; the delimiter stays in the remainder. -/
def splitNetlocChars : Str → Str × Str
  | [] => ([], [])
  | c :: r =>
    if c = '/' ∨ c = '?' ∨ c = '#' then ([], c :: r)
    else
      let p := splitNetlocChars r
      (c :: p.1, p.2)

/-- Characters allowed inside a URL scheme by `urllib.parse`. -/
def schemeCharOk (c : Char) : Bool := c.isAlphanum || c = '+' || c = '-' || c = '.'

/-- Scheme extraction of `urllib.parse.urlsplit`: the portion before the
first colon is the scheme when it is non-empty, starts with a letter and
uses only scheme characters; it is returned lower-cased. -/
def splitScheme (u : Str) : Str × Str :=
  match breakAt ':' u with
  | none => ([], u)
  | some p =>
    match p.1 with
    | [] => ([], u)
    | c :: cs =>
      if c.isAlpha && (c :: cs).all schemeCharOk then (lowerStr (c :: cs), p.2)
      else ([], u)

/-- The fields of `urllib.parse.urlparse` read by the crawler. -/
structure UrlParts where
  scheme : Str
  netloc : Str
  path : Str
  query : Str
  frag : Str

/-- Model of `urllib.parse.urlparse` for the fields the crawler reads
(scheme, netloc, path).  The parameter field (a semicolon split in the
last path segment) and the control-character stripping of newer stdlib
versions are omitted; no URL in this development contains a semicolon,
tab or newline, so the omission is unobservable here. -/
def parseUrl (url : Str) : UrlParts :=
  let sp := splitScheme url
  let nr :=
    match sp.2 with
    | '/' :: '/' :: rest => splitNetlocChars rest
    | other => (([] : Str), other)
  let hf := splitOnFirst '#' nr.2
  let pq := splitOnFirst '?' hf.1
  ⟨sp.1, nr.1, pq.1, pq.2, hf.2⟩

/-- `SKIP_EXTENSIONS` from crawler.py. -/
def skipExtensions : List Str :=
  [lit ".pdf", lit ".doc", lit ".docx", lit ".ppt", lit ".pptx", lit ".xls", lit ".xlsx",
   lit ".zip", lit ".rar", lit ".tar", lit ".gz", lit ".7z",
   lit ".jpg", lit ".jpeg", lit ".png", lit ".gif", lit ".bmp", lit ".svg", lit ".webp",
   lit ".mp3", lit ".mp4", lit ".avi", lit ".mov", lit ".wmv", lit ".flv",
   lit ".exe", lit ".bin", lit ".iso", lit ".dmg", lit ".apk", lit ".ipa"]

/-- The configuration fields of `WebsiteCrawler` computed in `__init__`:
the seed, the subdomain switch, the page budget, and the parsed scheme,
netloc and `www.`-stripped domain of the seed. -/
structure Crawler where
  startUrl : Str
  allowSubdomains : Bool
  maxPages : Nat
  scheme : Str
  netloc : Str
  domain : Str

/-- `WebsiteCrawler.__init__`: parse the seed and strip `www.` from its
netloc to obtain the crawl root domain. -/
def mkCrawler (startUrl : Str) (allowSubdomains : Bool) (maxPages : Nat) : Crawler :=
  let p := parseUrl startUrl
  ⟨startUrl, allowSubdomains, maxPages, p.scheme, p.netloc, replaceWww p.netloc⟩

/-- The relative-link resolution at the top of `_normalize_url`.  `jn` is
the external `urllib.parse.urljoin`, passed as an oracle. -/
def resolveUrl (cr : Crawler) (jn : Str → Str → Str) (url parentUrl : Str) : Str :=
  if strStarts url (lit "http://") || strStarts url (lit "https://") then url
  else if strStarts url (lit "/") then jn (cr.scheme ++ lit "://" ++ cr.netloc) url
  else jn parentUrl url

/-- The extension filter and canonicalisation tail of `_normalize_url`:
reject paths ending in a skipped extension (case-insensitively), drop the
query and fragment, and enforce a trailing slash. -/
def normTail (p : UrlParts) : Option Str :=
  let path := lowerStr p.path
  if skipExtensions.any (fun e => strEnds path e) then none
  else
    let clean := p.scheme ++ lit "://" ++ p.netloc ++ p.path
    some (if strEnds clean (lit "/") then clean else clean ++ lit "/")

/-- `WebsiteCrawler._normalize_url`: resolve relative links, reject
non-http(s) schemes, apply the domain scope check with `www.`
replacement, filter extensions and canonicalise. -/
def normalizeUrl (cr : Crawler) (jn : Str → Str → Str) (url parentUrl : Str) : Option Str :=
  let u := resolveUrl cr jn url parentUrl
  let p := parseUrl u
  if p.scheme = lit "http" ∨ p.scheme = lit "https" then
    let netloc := replaceWww p.netloc
    if cr.allowSubdomains then
      if strEnds netloc cr.domain then normTail p else none
    else
      if netloc = cr.domain ∨ netloc = lit "www." ++ cr.domain then normTail p else none
  else none

/-
  ## DOM model (BeautifulSoup objects as trees)
-/

mutual
/-- An HTML node as BeautifulSoup exposes it: an element with a tag name,
attributes and children, or a text node.  The children are a `DomForest`
rather than a `List Dom` so that every recursion over the tree is
structural (and therefore kernel-reducible). -/
inductive Dom where
  | elem (tag : Str) (attrs : List (Str × Str)) (children : DomForest)
  | txt (s : Str)

/-- A sequence of sibling HTML nodes. -/
inductive DomForest where
  | nil
  | cons (d : Dom) (ds : DomForest)
end

/-- First value of an attribute, as BeautifulSoup attribute access. -/
def getAttr (attrs : List (Str × Str)) (k : Str) : Option Str :=
  (attrs.find? (fun p => p.1 = k)).map (·.2)

/-- `NOISE_TAGS` from parser.py. -/
def noiseTags : List Str :=
  [lit "script", lit "style", lit "nav", lit "footer", lit "aside",
   lit "noscript", lit "form", lit "svg", lit "iframe", lit "header"]

mutual
/-- Remove (decompose) every descendant element satisfying `p`, keeping
the node itself. -/
def pruneNode (p : Str → List (Str × Str) → Bool) : Dom → Dom
  | .txt s => .txt s
  | .elem t a cs => .elem t a (pruneForest p cs)

/-- Remove every element of a forest (and of the surviving subtrees)
satisfying `p`. -/
def pruneForest (p : Str → List (Str × Str) → Bool) : DomForest → DomForest
  | .nil => .nil
  | .cons (.txt s) ds => .cons (.txt s) (pruneForest p ds)
  | .cons (.elem t a cs) ds =>
    if p t a then pruneForest p ds
    else .cons (.elem t a (pruneForest p cs)) (pruneForest p ds)
end

/-- `clean_html` from parser.py, given the parsed document forest:
decompose every element whose tag is in `NOISE_TAGS`. -/
def cleanHtmlForest (soup : DomForest) : DomForest :=
  pruneForest (fun t _ => t ∈ noiseTags) soup

/-- The CSS selectors used by the cascade, in structural form. -/
inductive Sel where
  | tagSel (t : Str)
  | idSel (i : Str)
  | clsSel (c : Str)
  | roleSel (v : Str)

/-- Whether an element matches a selector, as BeautifulSoup `select_one`
interprets the selectors used by the cascade. -/
def selMatches (s : Sel) (tag : Str) (attrs : List (Str × Str)) : Bool :=
  match s with
  | .tagSel t => tag = t
  | .idSel i => getAttr attrs (lit "id") = some i
  | .clsSel c =>
    match getAttr attrs (lit "class") with
    | some v => decide (c ∈ pyWords v)
    | none => false
  | .roleSel v => getAttr attrs (lit "role") = some v

mutual
/-- First element matching `s` in document (pre-)order, returned as its
components. -/
def selOneNode (s : Sel) : Dom → Option (Str × List (Str × Str) × DomForest)
  | .txt _ => none
  | .elem t a cs => if selMatches s t a then some (t, a, cs) else selOneList s cs

/-- `select_one` over a forest. -/
def selOneList (s : Sel) : DomForest → Option (Str × List (Str × Str) × DomForest)
  | .nil => none
  | .cons d ds =>
    match selOneNode s d with
    | some r => some r
    | none => selOneList s ds
end

mutual
/-- `element.get_text(strip=True)`: the concatenation of every text
node, each stripped. -/
def getTextStrip : Dom → Str
  | .txt s => pyStrip s
  | .elem _ _ cs => getTextForest cs

/-- `get_text(strip=True)` over a forest. -/
def getTextForest : DomForest → Str
  | .nil => []
  | .cons d ds => getTextStrip d ++ getTextForest ds
end

/-- Serialise attributes as ` key="value"`. -/
def attrsToStr (a : List (Str × Str)) : Str :=
  a.foldr (fun p acc => ' ' :: p.1 ++ '=' :: '"' :: p.2 ++ '"' :: acc) []

mutual
/-- `str(element)`: serialise a node back to HTML text. -/
def domToHtml : Dom → Str
  | .txt s => s
  | .elem t a cs =>
    '<' :: (t ++ attrsToStr a ++ '>' :: htmlForest cs ++ '<' :: '/' :: t ++ [('>' : Char)])

/-- Serialise a forest. -/
def htmlForest : DomForest → Str
  | .nil => []
  | .cons d ds => domToHtml d ++ htmlForest ds
end

/-
  ## Extraction cascade (parser.py)
-/

/-- The external collaborators of the cascade: the HTML parser building
the soup, the trafilatura extractor and the readability extractor (title
and summary; `none` models a library exception). -/
structure Extractors where
  parseHtml : Str → DomForest
  trafilatura : Str → Option Str
  readability : Str → Option (Str × Str)

/-- `extract_with_trafilatura`: reject an absent result and any result
shorter than 500 characters. -/
def extractWithTrafilatura (E : Extractors) (html : Str) : Option Str :=
  match E.trafilatura html with
  | none => none
  | some s => if s = [] ∨ s.length < 500 then none else some s

/-- `extract_with_readability`: reject an absent or short summary, then
prepend the title as an `h1` heading when one exists. -/
def extractWithReadability (E : Extractors) (html : Str) : Option Str :=
  match E.readability html with
  | none => none
  | some p =>
    if p.2 = [] ∨ p.2.length < 500 then none
    else if p.1 = [] then some p.2
    else some (lit "<h1>" ++ p.1 ++ lit "</h1>\n" ++ p.2)

/-- `extract_with_selector`: take the first match of the selector,
decompose noise tags inside it, and require at least 200 characters of
visible text. -/
def extractWithSelector (soup : DomForest) (s : Sel) : Option Str :=
  match selOneList s soup with
  | none => none
  | some r =>
    let el := pruneNode (fun t _ => t ∈ noiseTags) (.elem r.1 r.2.1 r.2.2)
    if (getTextStrip el).length < 200 then none else some (domToHtml el)

/-- The class names removed by the body fallback. -/
def fallbackNoiseClasses : List Str :=
  [lit "sidebar", lit "comments", lit "related", lit "recommended", lit "ad", lit "advertisement"]

/-- Whether an attribute list carries one of the body-fallback noise
classes. -/
def hasFallbackNoiseClass (attrs : List (Str × Str)) : Bool :=
  match getAttr attrs (lit "class") with
  | some v => fallbackNoiseClasses.any (fun c => decide (c ∈ pyWords v))
  | none => false

/-- The body-fallback strategy: find the `body` element, decompose
sidebar/comment/advertisement descendants, and serialise it. -/
def bodyFallback (soup : DomForest) : Option Str :=
  match selOneList (.tagSel (lit "body")) soup with
  | none => none
  | some r => some (domToHtml (pruneNode (fun _ a => hasFallbackNoiseClass a) (.elem r.1 r.2.1 r.2.2)))

/-- Python truthiness of an optional string: `None` and the empty string
are falsy. -/
def truthy : Option Str → Bool
  | none => false
  | some s => !s.isEmpty

/-- The payload of a truthy optional string. -/
def valOf : Option Str → Str := fun o => o.getD []

/-- The name string of the role selector, `selector:[role='main']`. -/
def roleSelName : Str :=
  lit "selector:[role=" ++ [Char.ofNat 39] ++ lit "main" ++ [Char.ofNat 39] ++ lit "]"

/-- The extraction portion of `parse_url_to_markdown` (parser.py lines
208-265): the strategy cascade over the raw HTML and the cleaned soup,
returning the chosen fragment and the strategy name, or `none` for the
no-content error. -/
def extractContent (E : Extractors) (html : Str) : Option (Str × Str) :=
  let soup := cleanHtmlForest (E.parseHtml html)
  let e1 := extractWithTrafilatura E html
  if truthy e1 then some (valOf e1, lit "trafilatura")
  else
    let e2 := extractWithReadability E html
    if truthy e2 then some (valOf e2, lit "readability")
    else
      let e3 := extractWithSelector soup (.tagSel (lit "main"))
      if truthy e3 then some (valOf e3, lit "main")
      else
        let e4 := extractWithSelector soup (.tagSel (lit "article"))
        if truthy e4 then some (valOf e4, lit "article")
        else
          let e5 := extractWithSelector soup (.idSel (lit "content"))
          if truthy e5 then some (valOf e5, lit "selector:#content")
          else
            let e6 := extractWithSelector soup (.clsSel (lit "content"))
            if truthy e6 then some (valOf e6, lit "selector:.content")
            else
              let e7 := extractWithSelector soup (.roleSel (lit "main"))
              if truthy e7 then some (valOf e7, roleSelName)
              else
                let e8 := extractWithSelector soup (.clsSel (lit "main-content"))
                if truthy e8 then some (valOf e8, lit "selector:.main-content")
                else
                  let e9 := extractWithSelector soup (.idSel (lit "main-content"))
                  if truthy e9 then some (valOf e9, lit "selector:#main-content")
                  else
                    let e10 := bodyFallback soup
                    if truthy e10 then some (valOf e10, lit "body-fallback")
                    else none

/-- The cascade as the specification describes it: an ordered list of
named strategies. -/
def strategyList (E : Extractors) (html : Str) : List (Str × Option Str) :=
  let soup := cleanHtmlForest (E.parseHtml html)
  [(lit "trafilatura", extractWithTrafilatura E html),
   (lit "readability", extractWithReadability E html),
   (lit "main", extractWithSelector soup (.tagSel (lit "main"))),
   (lit "article", extractWithSelector soup (.tagSel (lit "article"))),
   (lit "selector:#content", extractWithSelector soup (.idSel (lit "content"))),
   (lit "selector:.content", extractWithSelector soup (.clsSel (lit "content"))),
   (roleSelName, extractWithSelector soup (.roleSel (lit "main"))),
   (lit "selector:.main-content", extractWithSelector soup (.clsSel (lit "main-content"))),
   (lit "selector:#main-content", extractWithSelector soup (.idSel (lit "main-content"))),
   (lit "body-fallback", bodyFallback soup)]

/-- Specification-side evaluator: the result of the first succeeding
strategy, tagged with that strategy's name. -/
def firstSuccess : List (Str × Option Str) → Option (Str × Str)
  | [] => none
  | s :: rest => if truthy s.2 then some (valOf s.2, s.1) else firstSuccess rest

/-
  ## Line-level deduplication (parser.py, deduplicate_content)

  The md5 fingerprint of a trimmed line is modelled by the trimmed line
  itself; only equality of fingerprints is ever observed.
-/

/-- The loop body of `deduplicate_content`: accumulate kept lines and the
set of fingerprints of substantive (length > 40) lines. -/
def dedupStep (acc : List Str × List Str) (line : Str) : List Str × List Str :=
  let t := pyStrip line
  if t.length > 40 ∧ t ∈ acc.2 then acc
  else (acc.1 ++ [line], if t.length > 40 then t :: acc.2 else acc.2)

/-- `deduplicate_content`: split into lines, drop substantive lines whose
fingerprint was already seen, and rejoin. -/
def deduplicateContent (markdown : Str) (seen : List Str) : Str × List Str :=
  let r := (splitNl markdown).foldl dedupStep ([], seen)
  (joinNl r.1, r.2)

/-- Specification-side recursion over the lines: a line is dropped if and
only if its trimmed length exceeds 40 and its fingerprint is already in
the accumulated set; every other line passes through, and only lines of
trimmed length over 40 are added to the set. -/
def dedupSpec (seen : List Str) : List Str → List Str × List Str
  | [] => ([], seen)
  | l :: ls =>
    let t := pyStrip l
    if t.length > 40 ∧ t ∈ seen then dedupSpec seen ls
    else
      let r := dedupSpec (if t.length > 40 then t :: seen else seen) ls
      (l :: r.1, r.2)

/-
  ## Crawl orchestration (crawler.py, WebsiteCrawler.crawl)

  The network, robots policy and link harvesting are oracles; the state
  machine below is the loop body of `crawl`.  The model additionally
  instruments the state with the list of URLs sent through the fetch
  pipeline (`fetchLog`) and the number of `time.sleep(self.delay)` calls
  (`sleeps`) so that the temporal claims can be stated.
-/

/-- External collaborators of the crawl loop: the robots gate, the
single-page pipeline `parse_url_to_markdown` (returning the failure
reason or the page Markdown), the second fetch used for link harvesting,
the `<a href>` values BeautifulSoup finds in a document, `urljoin` and
the timestamp. -/
structure CrawlOracles where
  canFetch : Str → Bool
  parsePage : Str → Except Str Str
  fetchHtml : Str → Except Str Str
  rawLinks : Str → List Str
  urljoin : Str → Str → Str
  timestamp : Str

/-- The mutable crawl state: frontier queue, visited set, page-content
hashes (modelled by the Markdown itself), failure map, page counter, the
contents of the `llms.md` output file, the `all_markdown` aggregate, and
the two instrumentation fields. -/
structure CrawlState where
  queue : List Str
  visited : List Str
  hashes : List Str
  failed : List (Str × Str)
  pages : Nat
  file : Str
  agg : Str
  fetchLog : List Str
  sleeps : Nat

/-- The header written to `llms.md` when the crawl starts. -/
def crawlHeader (cr : Crawler) (o : CrawlOracles) : Str :=
  lit "# Website Crawl: " ++ cr.startUrl ++ lit "\n\n*Generated on " ++ o.timestamp ++
    lit "*\n\n*Crawl configuration: max_pages=" ++ natStr cr.maxPages ++
    lit ", allow_subdomains=" ++ lit (if cr.allowSubdomains then "True" else "False") ++
    lit "*\n\n"

/-- The crawl state before the first loop iteration: the seed URL is
enqueued verbatim and the header has been written to the file. -/
def initState (cr : Crawler) (o : CrawlOracles) : CrawlState :=
  ⟨[cr.startUrl], [], [], [], 0, crawlHeader cr o, [], [], 0⟩

/-- The page-section header path: `parsed.path if parsed.path else "/"`. -/
def pathOf (u : Str) : Str :=
  let p := parseUrl u
  if p.path = [] then lit "/" else p.path

/-- `_extract_links`: strip each href, skip empty, `javascript:` and `#`
links, and keep the normalised survivors in order. -/
def extractLinksFrom (cr : Crawler) (o : CrawlOracles) (url html : Str) : List Str :=
  (o.rawLinks html).filterMap fun h0 =>
    let h := pyStrip h0
    if h.isEmpty || strStarts h (lit "javascript:") || h = lit "#" then none
    else normalizeUrl cr o.urljoin h url

/-- The enqueue loop: append every link not already visited. -/
def enqueueLinks (visited queue : List Str) (links : List Str) : List Str :=
  links.foldl (fun q l => if l ∈ visited then q else q ++ [l]) queue

/-- The page section appended to the file and the aggregate for a
successful non-duplicate page. -/
def pageChunk (u md : Str) : Str :=
  lit "\n\n## Page: " ++ pathOf u ++ lit "\n\n" ++ md ++ lit "\n\n---\n\n"

/-- One iteration of the `while` loop of `WebsiteCrawler.crawl`.  When the
queue is empty or the page budget is reached the state is returned
unchanged (the loop has terminated).  On a successful
`parse_url_to_markdown` call the `file` field is first overwritten with
the page Markdown, because parser.py opens `llms.md` in write mode on
every successful single-page parse. -/
def crawlStep (cr : Crawler) (o : CrawlOracles) (s : CrawlState) : CrawlState :=
  match s.queue with
  | [] => s
  | u :: rest =>
    if cr.maxPages ≤ s.pages then s
    else if u ∈ s.visited then { s with queue := rest }
    else
      let s1 := { s with queue := rest, visited := u :: s.visited }
      if o.canFetch u then
        match o.parsePage u with
        | .error e =>
          { s1 with failed := s1.failed ++ [(u, e)], fetchLog := s1.fetchLog ++ [u],
                    sleeps := s1.sleeps + 1 }
        | .ok md =>
          let s2 := { s1 with file := md, pages := s1.pages + 1, fetchLog := s1.fetchLog ++ [u] }
          if md ∈ s2.hashes then s2
          else
            let s3 := { s2 with hashes := md :: s2.hashes,
                                file := s2.file ++ pageChunk u md,
                                agg := s2.agg ++ pageChunk u md }
            match o.fetchHtml u with
            | .error e => { s3 with failed := s3.failed ++ [(u, e)], sleeps := s3.sleeps + 1 }
            | .ok html =>
              { s3 with queue := enqueueLinks s3.visited s3.queue (extractLinksFrom cr o u html),
                        sleeps := s3.sleeps + 1 }
      else { s1 with failed := s1.failed ++ [(u, lit "Blocked by robots.txt")] }

/-- The crawl state after `n` loop iterations. -/
def crawlIter (cr : Crawler) (o : CrawlOracles) : Nat → CrawlState
  | 0 => initState cr o
  | n + 1 => crawlStep cr o (crawlIter cr o n)

/-- The `## Crawl Summary` section computed after the loop. -/
def crawlSummary (s : CrawlState) : Str :=
  lit "\n\n## Crawl Summary\n\n" ++
  lit "* Total pages crawled: " ++ natStr s.pages ++ lit "\n" ++
  lit "* Total pages visited: " ++ natStr s.visited.length ++ lit "\n" ++
  lit "* Failed pages: " ++ natStr s.failed.length ++ lit "\n" ++
  (if s.failed.isEmpty then []
   else lit "\n### Failed URLs\n\n" ++
     s.failed.foldl (fun acc p => acc ++ lit "* " ++ p.1 ++ lit ": " ++ p.2 ++ lit "\n") [])

/-- The contents of `llms.md` when a crawl that halts within `n`
iterations finishes: the file state plus the appended summary. -/
def finalFile (cr : Crawler) (o : CrawlOracles) (n : Nat) : Str :=
  let s := crawlIter cr o n
  s.file ++ crawlSummary s

/-- The string returned by `WebsiteCrawler.crawl` for such a crawl:
`all_markdown` plus the summary. -/
def finalAgg (cr : Crawler) (o : CrawlOracles) (n : Nat) : Str :=
  let s := crawlIter cr o n
  s.agg ++ crawlSummary s

/-- The crawl-state invariant of the specification, plus the bookkeeping
fact (fetched URLs are visited) needed to maintain it. -/
def crawlInv (cr : Crawler) (s : CrawlState) : Prop :=
  s.pages ≤ cr.maxPages ∧
  (∀ p ∈ s.failed, p.1 ∈ s.visited) ∧
  (∀ u ∈ s.fetchLog, u ∈ s.visited) ∧
  s.fetchLog.Nodup

/-- What C4 reads the spec's stripping as: removal of a leading `www.`
prefix only.  Used to state the counterexample to C4. -/
def specStripLeadingWww (s : Str) : Str :=
  if strStarts s (lit "www.") then s.drop 4 else s

/-- The condition under which one loop iteration executes
`time.sleep(self.delay)`, given that the budget is not yet exhausted and
`u` heads the queue: the URL is new, robots allow it, and the page is
either a pipeline failure or a non-duplicate success.  (Robots blocks,
visited skips and duplicate-content skips reach `continue` before the
sleep.) -/
def sleepCond (o : CrawlOracles) (s : CrawlState) (u : Str) : Bool :=
  !(decide (u ∈ s.visited)) && o.canFetch u &&
    (match o.parsePage u with
     | .error _ => true
     | .ok md => !(decide (md ∈ s.hashes)))

/-
  ## Concrete instances used by counterexamples and witnesses

  The two `urljoin` oracles below are only ever applied, inside closed
  theorems, to argument pairs on which they agree with
  `urllib.parse.urljoin`:
  * `jnConcat base rel` with `rel` an absolute path and `base` a bare
    origin, where `urljoin` returns exactly `base ++ rel`;
  * `jnKeep base rel` with `rel` carrying a scheme different from the
    scheme of `base`, where `urljoin` returns `rel` unchanged.
-/

/-- `urljoin` oracle for absolute-path references against a bare origin. -/
def jnConcat : Str → Str → Str := fun b r => b ++ r

/-- `urljoin` oracle for cross-scheme references, which `urljoin` returns
unchanged. -/
def jnKeep : Str → Str → Str := fun _ r => r

/-- Extractors for a document whose body is present but empty: the parsed
soup is `<body></body>` and both readability libraries find nothing. -/
def extractorsEmptyBody : Extractors :=
  { parseHtml := fun _ => .cons (Dom.elem (lit "body") [] .nil) .nil
    trafilatura := fun _ => none
    readability := fun _ => none }

/-- Extractors for a document with no body element at all. -/
def extractorsBare : Extractors :=
  { parseHtml := fun _ => .nil
    trafilatura := fun _ => none
    readability := fun _ => none }

/-- A crawler rooted at `http://example.com` without subdomains. -/
def crRoot : Crawler := mkCrawler (lit "http://example.com") false 10

/-- The crawler produced by a degenerate seed with an empty netloc, as
`WebsiteCrawler("x")` computes it. -/
def crTiny : Crawler := mkCrawler (lit "x") false 10

/-- Crawler for the seed `http://example.com/docs` (no trailing slash). -/
def crDocs : Crawler := mkCrawler (lit "http://example.com/docs") false 5

/-- Oracles for the `crDocs` crawl: every page is fetchable, extraction
returns the URL itself as Markdown, and every page links to `/docs`. -/
def oDocs : CrawlOracles :=
  { canFetch := fun _ => true
    parsePage := fun u => .ok u
    fetchHtml := fun u => .ok u
    rawLinks := fun _ => [lit "/docs"]
    urljoin := jnConcat
    timestamp := lit "2025-01-01 00:00:00" }

/-- Crawler for a one-page site at `http://ex.com/`. -/
def crSeed : Crawler := mkCrawler (lit "http://ex.com/") false 5

/-- Oracles for the `crSeed` crawl: the single page extracts to `PAGEMD`
and contains no links. -/
def oSeed : CrawlOracles :=
  { canFetch := fun _ => true
    parsePage := fun _ => .ok (lit "PAGEMD")
    fetchHtml := fun _ => .ok []
    rawLinks := fun _ => []
    urljoin := jnConcat
    timestamp := lit "2025-01-01 00:00:00" }

/-- Crawler for the duplicate-content scenario. -/
def crDup : Crawler := mkCrawler (lit "http://d.com/") false 5

/-- Oracles for the duplicate-content scenario: extraction always yields
the same Markdown `MD`. -/
def oDup : CrawlOracles :=
  { canFetch := fun _ => true
    parsePage := fun _ => .ok (lit "MD")
    fetchHtml := fun _ => .ok []
    rawLinks := fun _ => []
    urljoin := jnConcat
    timestamp := [] }

/-- A mid-crawl state in which the Markdown of `http://d.com/b` has
already been produced by an earlier page. -/
def dupState : CrawlState :=
  { queue := [lit "http://d.com/b"]
    visited := [lit "http://d.com/"]
    hashes := [lit "MD"]
    failed := []
    pages := 1
    file := []
    agg := []
    fetchLog := [lit "http://d.com/"]
    sleeps := 1 }

/-- Crawler for the failing-fetch scenario. -/
def crFail : Crawler := mkCrawler (lit "http://f.com/") false 5

/-- Oracles for the failing-fetch scenario: `parse_url_to_markdown`
raises on every page. -/
def oFail : CrawlOracles :=
  { canFetch := fun _ => true
    parsePage := fun _ => .error (lit "fetch failed")
    fetchHtml := fun _ => .ok []
    rawLinks := fun _ => []
    urljoin := jnConcat
    timestamp := [] }

/-
  ## Helper lemmas
-/

theorem strStarts_append (p t : Str) : strStarts (p ++ t) p = true := by
  induction p with
  | nil => cases t <;> rfl
  | cons c cs ih => simp [strStarts, ih]

theorem strStarts_iff {s p : Str} : strStarts s p = true ↔ ∃ t, s = p ++ t := by
  constructor
  · intro h
    induction p generalizing s with
    | nil => exact ⟨s, rfl⟩
    | cons c cs ih =>
      cases s with
      | nil => simp [strStarts] at h
      | cons d ds =>
        simp only [strStarts, Bool.and_eq_true, decide_eq_true_eq] at h
        obtain ⟨t, ht⟩ := ih h.2
        exact ⟨t, by simp [← h.1, ht]⟩
  · rintro ⟨t, rfl⟩
    exact strStarts_append p t

theorem strEnds_append_slash (x : Str) : strEnds (x ++ lit "/") (lit "/") = true := by
  have h : lit "/" = ['/'] := rfl
  rw [strEnds, h, List.reverse_append]
  simp [strStarts]

/-- The left component accumulated by `dedupStep` over a list of lines
is exactly the specification-side recursion. -/
theorem dedup_foldl (ls : List Str) : ∀ acc seen : List Str,
    ls.foldl dedupStep (acc, seen) = (acc ++ (dedupSpec seen ls).1, (dedupSpec seen ls).2) := by
  induction ls with
  | nil => intro acc seen; simp [dedupSpec]
  | cons l ls ih =>
    intro acc seen
    rw [List.foldl_cons]
    by_cases h : (pyStrip l).length > 40 ∧ pyStrip l ∈ seen
    · have hs : dedupStep (acc, seen) l = (acc, seen) := by simp [dedupStep, h]
      rw [hs, ih]
      simp [dedupSpec, h]
    · have hs : dedupStep (acc, seen) l =
          (acc ++ [l], if (pyStrip l).length > 40 then pyStrip l :: seen else seen) := by
        simp [dedupStep, h]
      rw [hs, ih]
      simp [dedupSpec, h]

/-
  ## Claim theorems
-/

/-- C1.  The extraction code of `parse_url_to_markdown` evaluates its
strategies in the fixed order trafilatura, readability, `main`,
`article`, `#content`, `.content`, `[role=main]`, `.main-content`,
`#main-content`, body fallback — each only if all prior strategies
failed — and for every input HTML the result is the fragment of the
first succeeding strategy, tagged with that strategy's name. -/
theorem c1_cascade_order (E : Extractors) (html : Str) :
    extractContent E html = firstSuccess (strategyList E html) := rfl

/-- C2, counterexample.  A document whose `body` element is present but
empty, matching none of the selectors and yielding nothing to either
readability extractor, does NOT fail with the no-content error: the body
fallback succeeds on it, because `str(body)` is truthy even for an empty
body.  The claim says this input raises `NoContentFound`. -/
theorem c2_counterexample :
    extractContent extractorsEmptyBody (lit "<body></body>") =
      some (lit "<body></body>", lit "body-fallback") := by decide

/-- C2, amended.  Extraction fails with the no-content error when every
strategy fails AND the cleaned document has no `body` element at all;
an empty `<body>` instead succeeds via the body fallback. -/
theorem c2_no_body_error (E : Extractors) (html : Str)
    (h1 : extractWithTrafilatura E html = none)
    (h2 : extractWithReadability E html = none)
    (h3 : extractWithSelector (cleanHtmlForest (E.parseHtml html)) (.tagSel (lit "main")) = none)
    (h4 : extractWithSelector (cleanHtmlForest (E.parseHtml html)) (.tagSel (lit "article")) = none)
    (h5 : extractWithSelector (cleanHtmlForest (E.parseHtml html)) (.idSel (lit "content")) = none)
    (h6 : extractWithSelector (cleanHtmlForest (E.parseHtml html)) (.clsSel (lit "content")) = none)
    (h7 : extractWithSelector (cleanHtmlForest (E.parseHtml html)) (.roleSel (lit "main")) = none)
    (h8 : extractWithSelector (cleanHtmlForest (E.parseHtml html)) (.clsSel (lit "main-content")) = none)
    (h9 : extractWithSelector (cleanHtmlForest (E.parseHtml html)) (.idSel (lit "main-content")) = none)
    (h10 : selOneList (.tagSel (lit "body")) (cleanHtmlForest (E.parseHtml html)) = none) :
    extractContent E html = none := by
  simp only [extractContent, bodyFallback, h1, h2, h3, h4, h5, h6, h7, h8, h9, h10, truthy]
  rfl

/-- C2, witness for the amended theorem: a document with no `body`
element fails with the no-content error. -/
theorem c2_witness : extractContent extractorsBare (lit "<html></html>") = none :=
  c2_no_body_error extractorsBare (lit "<html></html>") rfl rfl rfl rfl rfl rfl rfl rfl rfl rfl

/-- C5.  `deduplicate_content` drops a line exactly when its trimmed
length exceeds 40 and its fingerprint is already in the seen set
accumulated so far (so an earlier occurrence in the same input
suppresses a later one); every other line, including all short lines,
passes through unchanged, and only lines of trimmed length over 40 enter
the seen set. -/
theorem c5_dedupe_spec (markdown : Str) (seen : List Str) :
    deduplicateContent markdown seen =
      (joinNl (dedupSpec seen (splitNl markdown)).1, (dedupSpec seen (splitNl markdown)).2) := by
  unfold deduplicateContent
  rw [dedup_foldl]
  simp

/-- C3.  The crawl header (title, timestamp, configuration echo) written
at crawl start is destroyed before the crawl finishes: on every
successful page, `parse_url_to_markdown` reopens `llms.md` in write
mode, so the final file of a one-page crawl is the bare page Markdown
followed by the page section and the summary, and neither the file nor
the returned aggregate starts with the title line the claim requires. -/
theorem c3_header_clobbered :
    strStarts (initState crSeed oSeed).file (lit "# Website Crawl:") = true ∧
    strStarts (finalFile crSeed oSeed 2) (lit "# Website Crawl:") = false ∧
    strStarts (finalAgg crSeed oSeed 2) (lit "# Website Crawl:") = false ∧
    finalFile crSeed oSeed 2 =
      lit "PAGEMD" ++ pageChunk (lit "http://ex.com/") (lit "PAGEMD") ++
        crawlSummary (crawlIter crSeed oSeed 2) := by decide

theorem nodup_append_single {l : List Str} {u : Str} (hl : l.Nodup) (hu : u ∉ l) :
    (l ++ [u]).Nodup := by
  rw [← List.concat_eq_append]
  exact List.Nodup.concat hu hl

theorem forall_fst_mem_cons {failed : List (Str × Str)} {visited : List Str} {u : Str}
    (h2 : ∀ p ∈ failed, p.1 ∈ visited) : ∀ p ∈ failed, p.1 ∈ u :: visited :=
  fun p hp => List.mem_cons_of_mem _ (h2 p hp)

theorem forall_fst_mem_append {failed : List (Str × Str)} {visited : List Str} {u r : Str}
    (h2 : ∀ p ∈ failed, p.1 ∈ visited) :
    ∀ p ∈ failed ++ [(u, r)], p.1 ∈ u :: visited := by
  intro p hp
  rcases List.mem_append.mp hp with hin | hin
  · exact List.mem_cons_of_mem _ (h2 p hin)
  · rw [List.mem_singleton] at hin
    subst hin
    exact List.mem_cons_self _ _

theorem forall_mem_cons_of {log visited : List Str} {u : Str}
    (h3 : ∀ x ∈ log, x ∈ visited) : ∀ x ∈ log ++ [u], x ∈ u :: visited := by
  intro x hx
  rcases List.mem_append.mp hx with hin | hin
  · exact List.mem_cons_of_mem _ (h3 x hin)
  · rw [List.mem_singleton] at hin
    subst hin
    exact List.mem_cons_self _ _

theorem log_not_mem {log visited : List Str} {u : Str}
    (h3 : ∀ x ∈ log, x ∈ visited) (hv : u ∉ visited) : u ∉ log :=
  fun hin => hv (h3 u hin)

theorem crawlStep_visited_sub (cr : Crawler) (o : CrawlOracles) (s : CrawlState) :
    s.visited ⊆ (crawlStep cr o s).visited := by
  intro a ha
  unfold crawlStep
  dsimp only
  repeat' split
  all_goals first
    | exact ha
    | exact List.mem_cons_of_mem _ ha

theorem crawlStep_inv (cr : Crawler) (o : CrawlOracles) (s : CrawlState)
    (h : crawlInv cr s) : crawlInv cr (crawlStep cr o s) := by
  obtain ⟨h1, h2, h3, h4⟩ := h
  unfold crawlInv crawlStep
  dsimp only
  split
  · exact ⟨h1, h2, h3, h4⟩
  next u rest heq =>
    split
    · exact ⟨h1, h2, h3, h4⟩
    next hmax =>
      split
      · exact ⟨h1, h2, h3, h4⟩
      next hv =>
        have hpub : s.pages + 1 ≤ cr.maxPages := Nat.succ_le_of_lt (Nat.not_le.mp hmax)
        split
        · split
          next e hpp =>
            exact ⟨h1, forall_fst_mem_append h2, forall_mem_cons_of h3,
              nodup_append_single h4 (log_not_mem h3 hv)⟩
          next md hpp =>
            split
            · exact ⟨hpub, forall_fst_mem_cons h2, forall_mem_cons_of h3,
                nodup_append_single h4 (log_not_mem h3 hv)⟩
            · split
              next e hh =>
                exact ⟨hpub, forall_fst_mem_append h2, forall_mem_cons_of h3,
                  nodup_append_single h4 (log_not_mem h3 hv)⟩
              next html hh =>
                exact ⟨hpub, forall_fst_mem_cons h2, forall_mem_cons_of h3,
                  nodup_append_single h4 (log_not_mem h3 hv)⟩
        · exact ⟨h1, forall_fst_mem_append h2,
            (fun x hx => List.mem_cons_of_mem _ (h3 x hx)), h4⟩

theorem crawlIter_inv (cr : Crawler) (o : CrawlOracles) (n : Nat) :
    crawlInv cr (crawlIter cr o n) := by
  induction n with
  | zero =>
    refine ⟨Nat.zero_le _, ?_, ?_, List.nodup_nil⟩
    · intro p hp; simp [crawlIter, initState] at hp
    · intro x hx; simp [crawlIter, initState] at hx
  | succ n ih => exact crawlStep_inv cr o (crawlIter cr o n) ih

theorem crawlIter_visited_mono (cr : Crawler) (o : CrawlOracles) {n m : Nat} (h : n ≤ m) :
    (crawlIter cr o n).visited ⊆ (crawlIter cr o m).visited := by
  obtain ⟨k, rfl⟩ := Nat.le.dest h
  clear h
  induction k with
  | zero => exact fun a ha => ha
  | succ k ih =>
    intro a ha
    exact crawlStep_visited_sub cr o (crawlIter cr o (n + k)) (ih ha)

/-- C6.  In every state reachable during a crawl run the claimed
invariant holds: the page counter never exceeds the budget, every failed
URL is in the visited set, the visited set grows monotonically with the
iteration count, and no URL is sent through the fetch pipeline twice
(the instrumented fetch log never repeats a URL, because the visited set
is checked and extended on dequeue before any fetch). -/
theorem c6_crawl_invariant (cr : Crawler) (o : CrawlOracles) (n m : Nat) (h : n ≤ m) :
    (crawlIter cr o n).pages ≤ cr.maxPages ∧
    (∀ p ∈ (crawlIter cr o n).failed, p.1 ∈ (crawlIter cr o n).visited) ∧
    (crawlIter cr o n).fetchLog.Nodup ∧
    (crawlIter cr o n).visited ⊆ (crawlIter cr o m).visited :=
  ⟨(crawlIter_inv cr o n).1, (crawlIter_inv cr o n).2.1, (crawlIter_inv cr o n).2.2.2,
    crawlIter_visited_mono cr o h⟩

/-- C6, witness: the invariant instantiated on a concrete two-step crawl. -/
theorem c6_witness :
    (crawlIter crDocs oDocs 2).pages ≤ crDocs.maxPages ∧
    (crawlIter crDocs oDocs 2).fetchLog.Nodup :=
  ⟨(c6_crawl_invariant crDocs oDocs 2 3 (by decide)).1,
   (c6_crawl_invariant crDocs oDocs 2 3 (by decide)).2.2.1⟩

/-- C7.  When the Markdown of a dequeued URL is byte-identical to an
earlier page of the same crawl, the step still increments the page
counter, appends nothing to the aggregate output, enqueues none of the
page's outlinks (the queue only loses the dequeued URL), and leaves the
hash set unchanged, while the URL is still marked visited. -/
theorem c7_duplicate_step (cr : Crawler) (o : CrawlOracles) (s : CrawlState) (u : Str)
    (rest : List Str) (md : Str)
    (hq : s.queue = u :: rest) (hp : s.pages < cr.maxPages) (hv : u ∉ s.visited)
    (hc : o.canFetch u = true) (hm : o.parsePage u = .ok md) (hd : md ∈ s.hashes) :
    (crawlStep cr o s).pages = s.pages + 1 ∧
    (crawlStep cr o s).agg = s.agg ∧
    (crawlStep cr o s).queue = rest ∧
    (crawlStep cr o s).hashes = s.hashes ∧
    (crawlStep cr o s).visited = u :: s.visited := by
  simp [crawlStep, hq, hv, hc, hm, hd, Nat.not_le.mpr hp]

/-- C7, witness: the duplicate step evaluated on a concrete mid-crawl
state. -/
theorem c7_witness :
    (crawlStep crDup oDup dupState).pages = 2 ∧
    (crawlStep crDup oDup dupState).agg = [] ∧
    (crawlStep crDup oDup dupState).queue = [] ∧
    (crawlStep crDup oDup dupState).hashes = [lit "MD"] ∧
    (crawlStep crDup oDup dupState).visited = lit "http://d.com/b" :: dupState.visited := by
  have h := c7_duplicate_step crDup oDup dupState (lit "http://d.com/b") [] (lit "MD")
    rfl (by decide) (by decide) rfl rfl (by decide)
  exact ⟨h.1, h.2.1, h.2.2.1, h.2.2.2.1, h.2.2.2.2⟩

/-- C8, counterexample.  A step whose fetch/extraction fails still
sleeps: starting from the initial state of the `crFail` crawl, the step
records a failure, appends no page, increments no page counter — and yet
performs the politeness delay, so the delay is not performed only after
successfully appended non-duplicate pages as the claim states. -/
theorem c8_counterexample :
    (crawlStep crFail oFail (initState crFail oFail)).sleeps = 1 ∧
    (crawlStep crFail oFail (initState crFail oFail)).pages = 0 ∧
    (crawlStep crFail oFail (initState crFail oFail)).agg = [] ∧
    (crawlStep crFail oFail (initState crFail oFail)).failed =
      [(lit "http://f.com/", lit "fetch failed")] := by decide

/-- C8, amended.  A non-terminated crawl step performs the politeness
delay exactly once if and only if the dequeued URL is new, allowed by
robots, and either fails in the fetch/extraction pipeline or succeeds
with non-duplicate content; visited skips, robots blocks and
duplicate-content skips never sleep. -/
theorem c8_sleep_rule (cr : Crawler) (o : CrawlOracles) (s : CrawlState) (u : Str)
    (rest : List Str) (hq : s.queue = u :: rest) (hp : s.pages < cr.maxPages) :
    (crawlStep cr o s).sleeps = s.sleeps + (if sleepCond o s u then 1 else 0) := by
  by_cases hv : u ∈ s.visited
  · simp [crawlStep, hq, hv, sleepCond, Nat.not_le.mpr hp]
  · by_cases hc : o.canFetch u
    · cases hpp : o.parsePage u with
      | error e => simp [crawlStep, hq, hv, hc, hpp, sleepCond, Nat.not_le.mpr hp]
      | ok md =>
        by_cases hd : md ∈ s.hashes
        · simp [crawlStep, hq, hv, hc, hpp, hd, sleepCond, Nat.not_le.mpr hp]
        · cases hh : o.fetchHtml u <;>
            simp [crawlStep, hq, hv, hc, hpp, hd, hh, sleepCond, Nat.not_le.mpr hp]
    · simp [crawlStep, hq, hv, hc, sleepCond, Nat.not_le.mpr hp]

/-- C8, witness for the amended rule, on the failing-fetch scenario. -/
theorem c8_witness :
    (crawlStep crFail oFail (initState crFail oFail)).sleeps =
      (initState crFail oFail).sleeps +
        (if sleepCond oFail (initState crFail oFail) (lit "http://f.com/") then 1 else 0) :=
  c8_sleep_rule crFail oFail (initState crFail oFail) (lit "http://f.com/") [] rfl (by decide)

theorem normTail_ends_slash (p : UrlParts) (v : Str) (h : normTail p = some v) :
    strEnds v (lit "/") = true := by
  simp only [normTail] at h
  split at h
  · exact absurd h (by simp)
  · rw [Option.some_inj] at h
    subst h
    split
    next hc => exact hc
    next => exact strEnds_append_slash _

theorem normalizeUrl_ends_slash (cr : Crawler) (jn : Str → Str → Str) (url parentUrl v : Str)
    (h : normalizeUrl cr jn url parentUrl = some v) : strEnds v (lit "/") = true := by
  simp only [normalizeUrl] at h
  split at h
  · split at h
    · split at h
      · exact normTail_ends_slash _ _ h
      · exact absurd h (by simp)
    · split at h
      · exact normTail_ends_slash _ _ h
      · exact absurd h (by simp)
  · exact absurd h (by simp)

/-- C10.  Every URL returned by the normaliser ends in a trailing slash,
yet the seed URL is enqueued (and later recorded as visited) verbatim
without passing through the normaliser; hence a seed given without a
trailing slash coexists with its slash-terminated normalised variant,
and in the concrete `crDocs` crawl the same page is fetched twice, once
as the raw seed and once as the slash-terminated discovered link. -/
theorem c10_seed_double_fetch :
    (∀ (cr : Crawler) (jn : Str → Str → Str) (u p v : Str),
        normalizeUrl cr jn u p = some v → strEnds v (lit "/") = true) ∧
    (∀ (cr : Crawler) (o : CrawlOracles), (initState cr o).queue = [cr.startUrl]) ∧
    (crawlIter crDocs oDocs 2).fetchLog =
      [lit "http://example.com/docs", lit "http://example.com/docs/"] ∧
    lit "http://example.com/docs" ∈ (crawlIter crDocs oDocs 2).visited := by
  refine ⟨fun cr jn u p v h => normalizeUrl_ends_slash cr jn u p v h,
    fun cr o => rfl, by decide, by decide⟩

/-- C10, witness: the trailing-slash component applied to the link
`/docs` discovered on the seed page of the `crDocs` crawl. -/
theorem c10_witness : strEnds (lit "http://example.com/docs/") (lit "/") = true :=
  c10_seed_double_fetch.1 crDocs jnConcat (lit "/docs") (lit "http://example.com/docs")
    (lit "http://example.com/docs/") (by decide)

/-- C4, amended.  `_normalize_url` returns a URL only when the scope
check passes on the host with EVERY occurrence of the substring `www.`
removed (Python `str.replace`, not a strip of a leading `www.` only):
with subdomains off the replaced host must equal the replaced root
domain or its `www.` spelling, and with subdomains on it must end with
the replaced root domain as a raw string suffix; all other links yield
`None`. -/
theorem c4_scope_replace_all (cr : Crawler) (jn : Str → Str → Str) (url parentUrl v : Str)
    (h : normalizeUrl cr jn url parentUrl = some v) :
    (cr.allowSubdomains = false →
       replaceWww (parseUrl (resolveUrl cr jn url parentUrl)).netloc = cr.domain ∨
       replaceWww (parseUrl (resolveUrl cr jn url parentUrl)).netloc = lit "www." ++ cr.domain) ∧
    (cr.allowSubdomains = true →
       strEnds (replaceWww (parseUrl (resolveUrl cr jn url parentUrl)).netloc) cr.domain = true) := by
  simp only [normalizeUrl] at h
  split at h
  · split at h
    next hsub =>
      split at h
      next hscope =>
        refine ⟨fun hfalse => ?_, fun _ => hscope⟩
        rw [hfalse] at hsub
        exact absurd hsub (by simp)
      next => exact absurd h (by simp)
    next hsub =>
      split at h
      next hscope =>
        refine ⟨fun _ => hscope, fun htrue => absurd htrue hsub⟩
      next => exact absurd h (by simp)
  · exact absurd h (by simp)

/-- C4, counterexample.  With the crawl rooted at `example.com` and
subdomains off, the out-of-scope link `http://example.www.com/page` is
accepted by the code (the `replace` deletes the interior `www.`, making
the host collide with the root domain), although under the claim's
leading-`www.`-strip reading its host matches neither accepted spelling
and the link should yield `None`. -/
theorem c4_counterexample :
    normalizeUrl crRoot jnKeep (lit "http://example.www.com/page") (lit "http://example.com/") =
      some (lit "http://example.www.com/page/") ∧
    crRoot.allowSubdomains = false ∧
    specStripLeadingWww (parseUrl (lit "http://example.www.com/page")).netloc ≠ crRoot.domain ∧
    specStripLeadingWww (parseUrl (lit "http://example.www.com/page")).netloc ≠
      lit "www." ++ crRoot.domain := by decide

/-- C4, witness for the amended theorem: an accepted in-scope link
satisfies the replaced-host scope relation. -/
theorem c4_witness :
    replaceWww (parseUrl (resolveUrl crRoot jnKeep (lit "http://www.example.com/a")
        (lit "http://example.com/"))).netloc = crRoot.domain ∨
    replaceWww (parseUrl (resolveUrl crRoot jnKeep (lit "http://www.example.com/a")
        (lit "http://example.com/"))).netloc = lit "www." ++ crRoot.domain :=
  (c4_scope_replace_all crRoot jnKeep (lit "http://www.example.com/a") (lit "http://example.com/")
    (lit "http://www.example.com/a/") (by decide)).1 rfl

/-
  ## Lemmas for normalisation idempotence (C9)
-/

theorem strStarts_cons_false (a b : Char) (s p : Str) (h : a ≠ b) :
    strStarts (a :: s) (b :: p) = false := by
  simp [strStarts, h]

theorem breakAt_none_of_not_mem {sep : Char} {s : Str} (h : sep ∉ s) :
    breakAt sep s = none := by
  induction s with
  | nil => rfl
  | cons c r ih =>
    have hc : c ≠ sep := fun he => h (he ▸ List.mem_cons_self c r)
    have hr : sep ∉ r := fun hm => h (List.mem_cons_of_mem _ hm)
    simp [breakAt, hc, ih hr]

theorem splitOnFirst_of_not_mem {sep : Char} {s : Str} (h : sep ∉ s) :
    splitOnFirst sep s = (s, []) := by
  simp [splitOnFirst, breakAt_none_of_not_mem h]

theorem breakAt_fst_not_mem (sep : Char) (s : Str) :
    ∀ p, breakAt sep s = some p → sep ∉ p.1 := by
  induction s with
  | nil => intro p hp; simp [breakAt] at hp
  | cons c r ih =>
    intro p hp
    by_cases hc : c = sep
    · simp [breakAt, hc] at hp
      subst hp
      exact List.not_mem_nil sep
    · simp only [breakAt, if_neg hc] at hp
      cases hb : breakAt sep r with
      | none => rw [hb] at hp; exact absurd hp (by simp)
      | some q =>
        rw [hb] at hp
        rw [Option.some_inj] at hp
        subst hp
        intro hm
        rcases List.mem_cons.mp hm with he | hm2
        · exact hc he.symm
        · exact ih q hb hm2

theorem breakAt_fst_sub (sep : Char) (s : Str) :
    ∀ p, breakAt sep s = some p → ∀ c ∈ p.1, c ∈ s := by
  induction s with
  | nil => intro p hp; simp [breakAt] at hp
  | cons a r ih =>
    intro p hp
    by_cases ha : a = sep
    · simp [breakAt, ha] at hp
      subst hp
      intro c hc
      exact absurd hc (List.not_mem_nil c)
    · simp only [breakAt, if_neg ha] at hp
      cases hb : breakAt sep r with
      | none => rw [hb] at hp; exact absurd hp (by simp)
      | some q =>
        rw [hb] at hp
        rw [Option.some_inj] at hp
        subst hp
        intro c hc
        rcases List.mem_cons.mp hc with he | hm2
        · exact he ▸ List.mem_cons_self a r
        · exact List.mem_cons_of_mem _ (ih q hb c hm2)

theorem not_mem_of_breakAt_none {sep : Char} {s : Str} (h : breakAt sep s = none) :
    sep ∉ s := by
  induction s with
  | nil => exact List.not_mem_nil sep
  | cons c r ih =>
    by_cases hc : c = sep
    · simp [breakAt, hc] at h
    · simp only [breakAt, if_neg hc] at h
      cases hb : breakAt sep r with
      | none =>
        intro hm
        rcases List.mem_cons.mp hm with he | hm2
        · exact hc he.symm
        · exact ih hb hm2
      | some q => rw [hb] at h; exact absurd h (by simp)

theorem splitOnFirst_fst_not_mem (sep : Char) (s : Str) :
    sep ∉ (splitOnFirst sep s).1 := by
  unfold splitOnFirst
  cases hb : breakAt sep s with
  | none => exact not_mem_of_breakAt_none hb
  | some p => exact breakAt_fst_not_mem sep s p hb

theorem splitOnFirst_fst_sub (sep : Char) (s : Str) :
    ∀ c ∈ (splitOnFirst sep s).1, c ∈ s := by
  unfold splitOnFirst
  cases hb : breakAt sep s with
  | none => exact fun c hc => hc
  | some p => exact breakAt_fst_sub sep s p hb

theorem splitOnFirst_cons_ne {sep c : Char} (r : Str) (h : c ≠ sep) :
    splitOnFirst sep (c :: r) = (c :: (splitOnFirst sep r).1, (splitOnFirst sep r).2) := by
  unfold splitOnFirst
  simp only [breakAt, if_neg h]
  cases hb : breakAt sep r <;> simp

theorem splitOnFirst_cons_self (sep : Char) (r : Str) :
    splitOnFirst sep (sep :: r) = ([], r) := by
  simp [splitOnFirst, breakAt]

theorem snc_fst_not_stop (w : Str) :
    ∀ c ∈ (splitNetlocChars w).1, ¬(c = '/' ∨ c = '?' ∨ c = '#') := by
  induction w with
  | nil => intro c hc; exact absurd hc (List.not_mem_nil c)
  | cons a r ih =>
    by_cases ha : a = '/' ∨ a = '?' ∨ a = '#'
    · simp only [splitNetlocChars, if_pos ha]
      intro c hc
      exact absurd hc (List.not_mem_nil c)
    · simp only [splitNetlocChars, if_neg ha]
      intro c hc
      rcases List.mem_cons.mp hc with he | hm
      · subst he; exact ha
      · exact ih c hm

theorem snc_snd_shape (w : Str) :
    (splitNetlocChars w).2 = [] ∨
      ∃ c r, (splitNetlocChars w).2 = c :: r ∧ (c = '/' ∨ c = '?' ∨ c = '#') := by
  induction w with
  | nil => exact Or.inl rfl
  | cons a r ih =>
    by_cases ha : a = '/' ∨ a = '?' ∨ a = '#'
    · refine Or.inr ⟨a, r, ?_, ha⟩
      simp only [splitNetlocChars, if_pos ha]
    · simpa only [splitNetlocChars, if_neg ha] using ih

theorem snc_append {n : Str} (r : Str)
    (hn : ∀ c ∈ n, ¬(c = '/' ∨ c = '?' ∨ c = '#'))
    (hr : r = [] ∨ ∃ c t, r = c :: t ∧ (c = '/' ∨ c = '?' ∨ c = '#')) :
    splitNetlocChars (n ++ r) = (n, r) := by
  induction n with
  | nil =>
    rcases hr with rfl | ⟨c, t, rfl, hct⟩
    · rfl
    · rw [List.nil_append]
      simp only [splitNetlocChars, if_pos hct]
  | cons a m ih =>
    have ha := hn a (List.mem_cons_self a m)
    have hm : ∀ c ∈ m, ¬(c = '/' ∨ c = '?' ∨ c = '#') :=
      fun c hc => hn c (List.mem_cons_of_mem _ hc)
    rw [List.cons_append]
    simp only [splitNetlocChars, if_neg ha]
    rw [ih hm]

theorem parseUrl_http (w : Str) :
    parseUrl (lit "http://" ++ w) =
      ⟨lit "http", (splitNetlocChars w).1,
       (splitOnFirst '?' (splitOnFirst '#' (splitNetlocChars w).2).1).1,
       (splitOnFirst '?' (splitOnFirst '#' (splitNetlocChars w).2).1).2,
       (splitOnFirst '#' (splitNetlocChars w).2).2⟩ := rfl

theorem parseUrl_https (w : Str) :
    parseUrl (lit "https://" ++ w) =
      ⟨lit "https", (splitNetlocChars w).1,
       (splitOnFirst '?' (splitOnFirst '#' (splitNetlocChars w).2).1).1,
       (splitOnFirst '?' (splitOnFirst '#' (splitNetlocChars w).2).1).2,
       (splitOnFirst '#' (splitNetlocChars w).2).2⟩ := rfl

theorem strEnds_append_left (a b t : Str) (h : strEnds b t = true) :
    strEnds (a ++ b) t = true := by
  rw [strEnds] at h ⊢
  obtain ⟨r, hr⟩ := strStarts_iff.mp h
  apply strStarts_iff.mpr
  exact ⟨r ++ a.reverse, by rw [List.reverse_append, hr, List.append_assoc]⟩

theorem strEnds_slash_false_of_last {n : Str} (x : Str)
    (hn : ∀ c ∈ n, ¬(c = '/' ∨ c = '?' ∨ c = '#')) (hne : n ≠ []) :
    strEnds (x ++ n) (lit "/") = false := by
  cases hnr : n.reverse with
  | nil => exact absurd (List.reverse_eq_nil_iff.mp hnr) hne
  | cons c m =>
    have hc : c ∈ n := List.mem_reverse.mp (hnr ▸ List.mem_cons_self c m)
    have hc2 : c ≠ '/' := fun he => hn c hc (Or.inl he)
    rw [strEnds, List.reverse_append, hnr, List.cons_append]
    have hlit : (lit "/").reverse = ['/'] := rfl
    rw [hlit]
    exact strStarts_cons_false c '/' _ _ hc2

theorem strEnds_single_append (a b : Str) (hb : b ≠ []) :
    strEnds (a ++ b) (lit "/") = strEnds b (lit "/") := by
  cases hbr : b.reverse with
  | nil => exact absurd (List.reverse_eq_nil_iff.mp hbr) hb
  | cons c m =>
    rw [strEnds, strEnds, List.reverse_append, hbr, List.cons_append]
    have hlit : (lit "/").reverse = ['/'] := rfl
    rw [hlit]
    simp [strStarts]

theorem any_strEnds_false (x t : Str) (es : List Str) (hrev : x.reverse = '/' :: t)
    (hes : es.all
      (fun e => match e.reverse with | [] => false | c :: _ => decide (c ≠ '/')) = true) :
    es.any (fun e => strEnds x e) = false := by
  rw [List.any_eq_false]
  intro e he
  have h1 := List.all_eq_true.mp hes e he
  rw [strEnds, hrev]
  cases hc : e.reverse with
  | nil => rw [hc] at h1; simp at h1
  | cons c p =>
    rw [hc] at h1
    simp only [decide_eq_true_eq] at h1
    simp [strStarts_cons_false '/' c t p (fun he2 => h1 he2.symm)]

theorem ext_check_slash (pa : Str) (hx : strEnds pa (lit "/") = true) :
    skipExtensions.any (fun e => strEnds (lowerStr pa) e) = false := by
  rw [strEnds] at hx
  obtain ⟨r, hr⟩ := strStarts_iff.mp hx
  have hr2 : pa.reverse = '/' :: r := by rw [hr]; rfl
  have hrev : (lowerStr pa).reverse = '/' :: r.map Char.toLower := by
    rw [lowerStr, ← List.map_reverse, hr2]
    rfl
  exact any_strEnds_false (lowerStr pa) (r.map Char.toLower) skipExtensions hrev (by decide)

/-- Shape of a successful `normTail` result: the scheme, netloc and a
path that is empty (with empty netloc) or slash-delimited on both
sides. -/
theorem normTail_form (sch N PA q f v : Str)
    (hN : ∀ c ∈ N, ¬(c = '/' ∨ c = '?' ∨ c = '#'))
    (hPA : PA = [] ∨ ∃ t, PA = '/' :: t)
    (hq : '?' ∉ PA) (hh : '#' ∉ PA)
    (h : normTail ⟨sch, N, PA, q, f⟩ = some v) :
    ∃ pa, v = sch ++ lit "://" ++ N ++ pa ∧
      (pa = [] ∧ N = [] ∨
        (∃ t, pa = '/' :: t) ∧ strEnds pa (lit "/") = true ∧ '?' ∉ pa ∧ '#' ∉ pa) := by
  simp only [normTail] at h
  split at h
  · exact absurd h (by simp)
  · rw [Option.some_inj] at h
    subst h
    split
    next hce =>
      refine ⟨PA, rfl, ?_⟩
      rcases hPA with rfl | ⟨t, rfl⟩
      · by_cases hne : N = []
        · exact Or.inl ⟨rfl, hne⟩
        · rw [List.append_nil] at hce
          rw [strEnds_slash_false_of_last (sch ++ lit "://") hN hne] at hce
          exact absurd hce (by simp)
      · refine Or.inr ⟨⟨t, rfl⟩, ?_, hq, hh⟩
        rw [strEnds_single_append _ _ (by simp)] at hce
        exact hce
    next hce =>
      refine ⟨PA ++ lit "/", by rw [List.append_assoc], ?_⟩
      rcases hPA with rfl | ⟨t, rfl⟩
      · refine Or.inr ⟨⟨[], rfl⟩, by decide, by decide, by decide⟩
      · refine Or.inr ⟨⟨t ++ lit "/", rfl⟩, strEnds_append_slash _, ?_, ?_⟩
        · intro hm
          rcases List.mem_append.mp hm with hm1 | hm2
          · exact hq hm1
          · simp [lit] at hm2
        · intro hm
          rcases List.mem_append.mp hm with hm1 | hm2
          · exact hh hm1
          · simp [lit] at hm2

/-- Shape analysis of a successful `_normalize_url` call whose input
parses with a `//`-authority: the result decomposes into scheme, netloc
and path with the properties needed for idempotence. -/
theorem normalizeUrl_form_of_parse (cr : Crawler) (jn : Str → Str → Str) (p v u sch w : Str)
    (hsch : sch = lit "http" ∨ sch = lit "https")
    (hres : resolveUrl cr jn u p = u)
    (hparse : parseUrl u =
      ⟨sch, (splitNetlocChars w).1,
       (splitOnFirst '?' (splitOnFirst '#' (splitNetlocChars w).2).1).1,
       (splitOnFirst '?' (splitOnFirst '#' (splitNetlocChars w).2).1).2,
       (splitOnFirst '#' (splitNetlocChars w).2).2⟩)
    (h : normalizeUrl cr jn u p = some v) :
    ∃ sch2 n pa, (sch2 = lit "http" ∨ sch2 = lit "https") ∧
      v = sch2 ++ lit "://" ++ n ++ pa ∧
      (∀ c ∈ n, ¬(c = '/' ∨ c = '?' ∨ c = '#')) ∧
      (pa = [] ∧ n = [] ∨
        (∃ t, pa = '/' :: t) ∧ strEnds pa (lit "/") = true ∧ '?' ∉ pa ∧ '#' ∉ pa) ∧
      (cr.allowSubdomains = true → strEnds (replaceWww n) cr.domain = true) ∧
      (cr.allowSubdomains = false →
        replaceWww n = cr.domain ∨ replaceWww n = lit "www." ++ cr.domain) := by
  have hN := snc_fst_not_stop w
  have hq := splitOnFirst_fst_not_mem '?' (splitOnFirst '#' (splitNetlocChars w).2).1
  have hh : '#' ∉ (splitOnFirst '?' (splitOnFirst '#' (splitNetlocChars w).2).1).1 :=
    fun hm => splitOnFirst_fst_not_mem '#' (splitNetlocChars w).2
      (splitOnFirst_fst_sub '?' _ '#' hm)
  have hsh : (splitOnFirst '?' (splitOnFirst '#' (splitNetlocChars w).2).1).1 = [] ∨
      ∃ t, (splitOnFirst '?' (splitOnFirst '#' (splitNetlocChars w).2).1).1 = '/' :: t := by
    rcases snc_snd_shape w with hr2 | ⟨c, r, hr2, hcs⟩
    · rw [hr2]; exact Or.inl rfl
    · rw [hr2]
      rcases hcs with rfl | hcs2
      · right
        rw [splitOnFirst_cons_ne r (by decide)]
        rw [splitOnFirst_cons_ne _ (by decide)]
        exact ⟨_, rfl⟩
      · rcases hcs2 with rfl | rfl
        · left
          rw [splitOnFirst_cons_ne r (by decide)]
          rw [splitOnFirst_cons_self '?' _]
        · left
          rw [splitOnFirst_cons_self '#' r]
          rfl
  simp only [normalizeUrl, hres, hparse] at h
  rw [if_pos hsch] at h
  cases hcr : cr.allowSubdomains with
  | true =>
    simp only [hcr, if_true] at h
    by_cases hsc : strEnds (replaceWww (splitNetlocChars w).1) cr.domain = true
    · rw [if_pos hsc] at h
      obtain ⟨pa, hv, hdisj⟩ := normTail_form _ _ _ _ _ _ hN hsh hq hh h
      exact ⟨sch, (splitNetlocChars w).1, pa, hsch, hv, hN, hdisj, fun _ => hsc,
        fun hf => absurd hf (by simp)⟩
    · rw [if_neg hsc] at h
      exact absurd h (by simp)
  | false =>
    simp only [hcr, Bool.false_eq_true, if_false] at h
    by_cases hsc : replaceWww (splitNetlocChars w).1 = cr.domain ∨
        replaceWww (splitNetlocChars w).1 = lit "www." ++ cr.domain
    · rw [if_pos hsc] at h
      obtain ⟨pa, hv, hdisj⟩ := normTail_form _ _ _ _ _ _ hN hsh hq hh h
      exact ⟨sch, (splitNetlocChars w).1, pa, hsch, hv, hN, hdisj,
        fun ht => absurd ht (by simp), fun _ => hsc⟩
    · rw [if_neg hsc] at h
      exact absurd h (by simp)

/-- Shape analysis of a successful `_normalize_url` call on an absolute
http(s) link. -/
theorem normalizeUrl_form (cr : Crawler) (jn : Str → Str → Str) (u p v : Str)
    (hu : strStarts u (lit "http://") = true ∨ strStarts u (lit "https://") = true)
    (h : normalizeUrl cr jn u p = some v) :
    ∃ sch n pa, (sch = lit "http" ∨ sch = lit "https") ∧
      v = sch ++ lit "://" ++ n ++ pa ∧
      (∀ c ∈ n, ¬(c = '/' ∨ c = '?' ∨ c = '#')) ∧
      (pa = [] ∧ n = [] ∨
        (∃ t, pa = '/' :: t) ∧ strEnds pa (lit "/") = true ∧ '?' ∉ pa ∧ '#' ∉ pa) ∧
      (cr.allowSubdomains = true → strEnds (replaceWww n) cr.domain = true) ∧
      (cr.allowSubdomains = false →
        replaceWww n = cr.domain ∨ replaceWww n = lit "www." ++ cr.domain) := by
  have hres : resolveUrl cr jn u p = u := by
    unfold resolveUrl
    rcases hu with h1 | h1 <;> simp [h1]
  rcases hu with h1 | h1 <;> obtain ⟨w, rfl⟩ := strStarts_iff.mp h1
  · exact normalizeUrl_form_of_parse cr jn p v _ (lit "http") w (Or.inl rfl) hres
      (parseUrl_http w) h
  · exact normalizeUrl_form_of_parse cr jn p v _ (lit "https") w (Or.inr rfl) hres
      (parseUrl_https w) h

/-- Re-normalising a URL in the shape produced by `_normalize_url` is
the identity: the same scheme, netloc and path are recovered and every
check passes again. -/
theorem normalizeUrl_idem_core (cr : Crawler) (jn : Str → Str → Str) (parentUrl : Str)
    (sch n pa : Str)
    (hsch : sch = lit "http" ∨ sch = lit "https")
    (hn : ∀ c ∈ n, ¬(c = '/' ∨ c = '?' ∨ c = '#'))
    (hpa : pa = [] ∧ n = [] ∨
      (∃ t, pa = '/' :: t) ∧ strEnds pa (lit "/") = true ∧ '?' ∉ pa ∧ '#' ∉ pa)
    (hT : cr.allowSubdomains = true → strEnds (replaceWww n) cr.domain = true)
    (hF : cr.allowSubdomains = false →
      replaceWww n = cr.domain ∨ replaceWww n = lit "www." ++ cr.domain) :
    normalizeUrl cr jn (sch ++ lit "://" ++ n ++ pa) parentUrl =
      some (sch ++ lit "://" ++ n ++ pa) := by
  have hassoc : ∀ s2 : Str, s2 ++ lit "://" ++ n ++ pa = (s2 ++ lit "://") ++ (n ++ pa) := by
    intro s2
    rw [List.append_assoc]
  have hstart : (strStarts (sch ++ lit "://" ++ n ++ pa) (lit "http://")
      || strStarts (sch ++ lit "://" ++ n ++ pa) (lit "https://")) = true := by
    rcases hsch with rfl | rfl
    · rw [hassoc]
      have : (lit "http" ++ lit "://") ++ (n ++ pa) = lit "http://" ++ (n ++ pa) := rfl
      rw [this, strStarts_append]
      simp
    · rw [hassoc]
      have : (lit "https" ++ lit "://") ++ (n ++ pa) = lit "https://" ++ (n ++ pa) := rfl
      rw [this, strStarts_append]
      simp
  have hres : resolveUrl cr jn (sch ++ lit "://" ++ n ++ pa) parentUrl =
      sch ++ lit "://" ++ n ++ pa := by
    unfold resolveUrl
    rw [if_pos hstart]
  have hq : '?' ∉ pa := by
    rcases hpa with ⟨rfl, _⟩ | ⟨_, _, hq, _⟩
    · exact List.not_mem_nil _
    · exact hq
  have hh : '#' ∉ pa := by
    rcases hpa with ⟨rfl, _⟩ | ⟨_, _, _, hh⟩
    · exact List.not_mem_nil _
    · exact hh
  have hsnc : splitNetlocChars (n ++ pa) = (n, pa) := by
    refine snc_append pa hn ?_
    rcases hpa with ⟨rfl, _⟩ | ⟨⟨t, rfl⟩, _, _, _⟩
    · exact Or.inl rfl
    · exact Or.inr ⟨'/', t, rfl, Or.inl rfl⟩
  have hparse : parseUrl (sch ++ lit "://" ++ n ++ pa) = ⟨sch, n, pa, [], []⟩ := by
    rcases hsch with rfl | rfl
    · rw [hassoc]
      have e2 : (lit "http" ++ lit "://") ++ (n ++ pa) = lit "http://" ++ (n ++ pa) := rfl
      rw [e2, parseUrl_http, hsnc]
      simp [splitOnFirst_of_not_mem hh, splitOnFirst_of_not_mem hq]
    · rw [hassoc]
      have e2 : (lit "https" ++ lit "://") ++ (n ++ pa) = lit "https://" ++ (n ++ pa) := rfl
      rw [e2, parseUrl_https, hsnc]
      simp [splitOnFirst_of_not_mem hh, splitOnFirst_of_not_mem hq]
  have hnt : normTail ⟨sch, n, pa, [], []⟩ = some (sch ++ lit "://" ++ n ++ pa) := by
    simp only [normTail]
    rcases hpa with ⟨rfl, rfl⟩ | ⟨⟨t, hpt⟩, hend, _, _⟩
    · rcases hsch with rfl | rfl <;> decide
    · have hext := ext_check_slash pa hend
      rw [if_neg (by simp [hext])]
      rw [if_pos (strEnds_append_left (sch ++ lit "://" ++ n) pa (lit "/") hend)]
  simp only [normalizeUrl, hres, hparse]
  rw [if_pos hsch]
  cases hcr : cr.allowSubdomains with
  | true =>
    simp only [if_true]
    rw [if_pos (hT hcr), hnt]
  | false =>
    simp only [Bool.false_eq_true, if_false]
    rw [if_pos (hF hcr), hnt]

/-- C9, amended.  For every absolute http(s) URL accepted by
`_normalize_url`, normalising its own output (with the same parent) is
the identity, so normalisation is idempotent on such links. -/
theorem c9_idempotent_absolute (cr : Crawler) (jn : Str → Str → Str) (u p v : Str)
    (hu : strStarts u (lit "http://") = true ∨ strStarts u (lit "https://") = true)
    (h : normalizeUrl cr jn u p = some v) :
    normalizeUrl cr jn v p = some v := by
  obtain ⟨sch, n, pa, hsch, rfl, hn, hpa, hT, hF⟩ := normalizeUrl_form cr jn u p v hu h
  exact normalizeUrl_idem_core cr jn p sch n pa hsch hn hpa hT hF

/-- C9, counterexample.  Idempotence fails as stated for scheme-relative
links: with a crawler built from a seed that parses to an empty netloc
(`WebsiteCrawler("x")`), the link `https:foo` is returned unchanged by
`urljoin` (its scheme differs from the parent's), is accepted in-scope,
and normalises to `https://foo/`; but normalising that output again
yields `None` instead of the same URL, because the reparse now sees the
netloc `foo`. -/
theorem c9_counterexample :
    normalizeUrl crTiny jnKeep (lit "https:foo") (lit "http://a/b") =
      some (lit "https://foo/") ∧
    normalizeUrl crTiny jnKeep (lit "https://foo/") (lit "http://a/b") = none := by decide

/-- C9, witness for the amended theorem: the normalised form of an
accepted absolute link renormalises to itself. -/
theorem c9_witness :
    normalizeUrl crRoot jnKeep (lit "http://example.com/a/") (lit "http://example.com/") =
      some (lit "http://example.com/a/") :=
  c9_idempotent_absolute crRoot jnKeep (lit "http://example.com/a") (lit "http://example.com/")
    (lit "http://example.com/a/") (Or.inl (by decide)) (by decide)
